import Mathlib

/-! Package `assets` of subs-check: build-time embedded assets

The package consists of two Go source files that declare three package-level
variables of type `[]byte`, each bound by a `//go:embed` directive to one file
of the package directory.  One of the two source files carries build
constraints.

The development below embeds

* the two source files, line by line (`assets_win_amd64_go`, `sub_store_go`);
* the rules by which the Go toolchain selects source files for a build
  (`//go:build` and `// +build` lines, file-name suffixes), following the
  functions of `go/build` and `go/build/constraint` whose names the
  definitions keep;
* the rule by which `//go:embed` binds a `[]byte` variable to the bytes of a
  file (`build`);
* the run-time values of the variables, Go slices over backing arrays that
  slices may share, and the operations of importing code on them (`State`,
  `Op`, `step`).
-/

set_option autoImplicit false

namespace Assets

/-! ## The source files -/

/-- A Go source file: its base name and its text, one entry per line. -/
structure GoFile where
  name : String
  lines : List String

/-- The file `assets/assets_win_amd64.go`. -/
def assets_win_amd64_go : GoFile where
  name := "assets_win_amd64.go"
  lines := [
    "//go:build windows && amd64",
    "// +build windows,amd64",
    "",
    "package assets",
    "",
    "import (",
    "\t// embed 用于嵌入二进制文件",
    "\t_ \"embed\"",
    ")",
    "",
    "// EmbeddedNode 嵌入的Node.js二进制文件",
    "//",
    "//go:embed node_windows_amd64.zst",
    "var EmbeddedNode []byte",
    ""]

/-- The file `assets/sub_store.go`. -/
def sub_store_go : GoFile where
  name := "sub_store.go"
  lines := [
    "package assets",
    "",
    "import (",
    "\t// embed 用于嵌入静态文件",
    "\t_ \"embed\"",
    ")",
    "",
    "// EmbeddedSubStore 嵌入的Sub-Store JavaScript文件",
    "//",
    "//go:embed sub-store.bundle.js.zst",
    "var EmbeddedSubStore []byte",
    "",
    "// EmbeddedOverrideYaml 嵌入的覆写配置YAML文件",
    "//",
    "//go:embed ACL4SSR_Online_Full.yaml.zst",
    "var EmbeddedOverrideYaml []byte"]

/-- The Go files of the package directory `assets`. -/
def packageFiles : List GoFile := [assets_win_amd64_go, sub_store_go]

/-! ## Text helpers (the functions of Go's `strings`/`bytes` the toolchain uses) -/

/-- White space as `strings.TrimSpace` and `strings.Fields` see it (ASCII part). -/
def isSpace (c : Char) : Bool :=
  c == ' ' || c == '\t' || c == '\n' || c == '\r' || c == '\x0b' || c == '\x0c'

/-- Go's `strings.TrimSpace`. -/
def trimSpace (s : List Char) : List Char :=
  ((s.dropWhile isSpace).reverse.dropWhile isSpace).reverse

/-- Go's `strings.HasPrefix`. -/
def hasPrefix (s p : List Char) : Bool := p.isPrefixOf s

/-- Go's `strings.Split` with a one-character separator. -/
def splitOn (sep : Char) : List Char → List (List Char)
  | [] => [[]]
  | c :: cs =>
    if c == sep then [] :: splitOn sep cs
    else
      match splitOn sep cs with
      | [] => [[c]]
      | w :: ws => (c :: w) :: ws

/-- Go's `strings.Fields`: the maximal runs of non-space characters. -/
def fields (s : List Char) : List (List Char) :=
  ((splitOn ' ' (s.map fun c => if isSpace c then ' ' else c)).filter fun w => !w.isEmpty)

/-- Go's `strings.Contains`. -/
def containsSub (p : List Char) : List Char → Bool
  | [] => p.isEmpty
  | c :: cs => hasPrefix (c :: cs) p || containsSub p cs

/-- What follows the first occurrence of `p` in the text, if `p` occurs. -/
def afterSub (p : List Char) : List Char → Option (List Char)
  | [] => if p.isEmpty then some [] else none
  | c :: cs => if hasPrefix (c :: cs) p then some ((c :: cs).drop p.length) else afterSub p cs

/-! ## Build-constraint expressions (`go/build/constraint`) -/

/-- A build-constraint expression (`constraint.Expr`). -/
inductive Expr where
  | tag (name : String)
  | not (x : Expr)
  | and (x y : Expr)
  | or (x y : Expr)
  deriving DecidableEq, Repr

/-- The method `Expr.Eval`: the value of an expression, given which tags hold. -/
def Expr.Eval (ok : String → Bool) : Expr → Bool
  | .tag name => ok name
  | .not x => !(x.Eval ok)
  | .and x y => x.Eval ok && y.Eval ok
  | .or x y => x.Eval ok || y.Eval ok

/-- The characters of a tag (`isValidTag`): letters, digits, `_` and `.`. -/
def isTagChar (c : Char) : Bool :=
  c.isAlphanum || c == '_' || c == '.'

/-- Go's `isValidTag`. -/
def isValidTag (w : List Char) : Bool :=
  !w.isEmpty && w.all isTagChar

/-- The tokens of a `//go:build` expression. -/
inductive Token where
  | lparen | rparen | bang | andand | oror
  | tag (name : String)
  deriving DecidableEq, Repr

/-- Closes the tag being read, if any (`cur` holds its characters, last first). -/
def flushTag (cur : List Char) (acc : List Token) : List Token :=
  if cur.isEmpty then acc else Token.tag (String.mk cur.reverse) :: acc

/-- The lexer of `exprParser` (`lex`), run over the whole expression: `none` is
its `invalid syntax` error. -/
def lexAux (cur : List Char) (acc : List Token) : List Char → Option (List Token)
  | [] => some (flushTag cur acc).reverse
  | '(' :: cs => lexAux [] (Token.lparen :: flushTag cur acc) cs
  | ')' :: cs => lexAux [] (Token.rparen :: flushTag cur acc) cs
  | '!' :: cs => lexAux [] (Token.bang :: flushTag cur acc) cs
  | '&' :: '&' :: cs => lexAux [] (Token.andand :: flushTag cur acc) cs
  | '|' :: '|' :: cs => lexAux [] (Token.oror :: flushTag cur acc) cs
  | c :: cs =>
    if c == ' ' || c == '\t' then lexAux [] (flushTag cur acc) cs
    else if isTagChar c then lexAux (c :: cur) acc cs
    else none

/-- The tokens of an expression. -/
def lex (s : List Char) : Option (List Token) := lexAux [] [] s

mutual
/-- The method `exprParser.or`: `and` operands separated by `||`. -/
def parseOr : Nat → List Token → Option (Expr × List Token)
  | 0, _ => none
  | fuel + 1, ts =>
    match parseAnd fuel ts with
    | none => none
    | some (x, rest) => parseOrLoop fuel x rest
/-- The loop of `exprParser.or`. -/
def parseOrLoop : Nat → Expr → List Token → Option (Expr × List Token)
  | 0, _, _ => none
  | fuel + 1, x, Token.oror :: ts =>
    match parseAnd fuel ts with
    | none => none
    | some (y, rest) => parseOrLoop fuel (Expr.or x y) rest
  | _ + 1, x, ts => some (x, ts)
/-- The method `exprParser.and`: `not` operands separated by `&&`. -/
def parseAnd : Nat → List Token → Option (Expr × List Token)
  | 0, _ => none
  | fuel + 1, ts =>
    match parseNot fuel ts with
    | none => none
    | some (x, rest) => parseAndLoop fuel x rest
/-- The loop of `exprParser.and`. -/
def parseAndLoop : Nat → Expr → List Token → Option (Expr × List Token)
  | 0, _, _ => none
  | fuel + 1, x, Token.andand :: ts =>
    match parseNot fuel ts with
    | none => none
    | some (y, rest) => parseAndLoop fuel (Expr.and x y) rest
  | _ + 1, x, ts => some (x, ts)
/-- The method `exprParser.not`: an atom, negated at most once. -/
def parseNot : Nat → List Token → Option (Expr × List Token)
  | 0, _ => none
  | _ + 1, Token.bang :: Token.bang :: _ => none
  | fuel + 1, Token.bang :: ts =>
    match parseAtom fuel ts with
    | none => none
    | some (x, rest) => some (Expr.not x, rest)
  | fuel + 1, ts => parseAtom fuel ts
/-- The method `exprParser.atom`: a tag or a parenthesized expression. -/
def parseAtom : Nat → List Token → Option (Expr × List Token)
  | 0, _ => none
  | fuel + 1, Token.lparen :: ts =>
    match parseOr fuel ts with
    | some (x, Token.rparen :: rest) => some (x, rest)
    | _ => none
  | _ + 1, Token.tag name :: ts => some (Expr.tag name, ts)
  | _ + 1, _ => none
end

/-- Go's `parseExpr`: the expression of a `//go:build` line; `none` is a syntax
error.  The fuel `6 * (number of tokens + 1)` covers every descent. -/
def parseExpr (text : List Char) : Option Expr :=
  match lex text with
  | none => none
  | some ts =>
    match parseOr (6 * (ts.length + 1)) ts with
    | some (x, []) => some x
    | _ => none

/-- Go's `splitGoBuild`: the expression of a `//go:build` line, `none` when the
line is not one. -/
def splitGoBuild (line : List Char) : Option (List Char) :=
  if hasPrefix line "//go:build".data then
    let rest := (trimSpace line).drop "//go:build".length
    let trim := trimSpace rest
    if rest.length == trim.length || trim.isEmpty then none else some trim
  else none

/-- Go's `isGoBuildComment`. -/
def isGoBuildComment (line : List Char) : Bool := (splitGoBuild line).isSome

/-- Go's `splitPlusBuild`: the clauses of a `// +build` line, `none` when the
line is not one. -/
def splitPlusBuild (line : List Char) : Option (List Char) :=
  if hasPrefix line "//".data then
    let rest := (trimSpace (line.drop 2))
    if hasPrefix rest "+build".data then
      let rest := rest.drop "+build".length
      let trim := trimSpace rest
      if rest.length == trim.length then none else some trim
    else none
  else none

/-- One literal of a `// +build` clause: a tag, possibly negated; what is not a
valid tag becomes the tag `ignore`. -/
def parsePlusBuildLit (lit : List Char) : Expr :=
  if hasPrefix lit "!!".data || lit == ['!'] then Expr.tag "ignore"
  else if hasPrefix lit ['!'] then
    let w := lit.drop 1
    Expr.not (if isValidTag w then Expr.tag (String.mk w) else Expr.tag "ignore")
  else if isValidTag lit then Expr.tag (String.mk lit) else Expr.tag "ignore"

/-- The conjunction of a non-empty list of expressions, associated to the left;
`none` for the empty list. -/
def andAll : List Expr → Option Expr
  | [] => none
  | x :: xs => some (xs.foldl Expr.and x)

/-- The disjunction of a non-empty list of expressions, associated to the left;
`none` for the empty list. -/
def orAll : List Expr → Option Expr
  | [] => none
  | x :: xs => some (xs.foldl Expr.or x)

/-- Go's `parsePlusBuildExpr`: spaces separate alternatives, commas join the
literals of one alternative. -/
def parsePlusBuildExpr (text : List Char) : Expr :=
  let clauses := (fields text).map fun clause =>
    (andAll ((splitOn ',' clause).map parsePlusBuildLit)).getD (Expr.tag "ignore")
  (orAll clauses).getD (Expr.tag "ignore")

/-- Go's `constraint.Parse`: the expression of a constraint line of either
syntax; `none` when the line is no constraint line or does not parse. -/
def Parse (line : List Char) : Option Expr :=
  match splitGoBuild line with
  | some text => parseExpr text
  | none =>
    match splitPlusBuild line with
    | some text => some (parsePlusBuildExpr text)
    | none => none

/-! ## The build context (`go/build`) -/

/-- The fields of `build.Context` that decide build constraints. -/
structure Context where
  GOOS : String
  GOARCH : String
  Compiler : String
  CgoEnabled : Bool
  BuildTags : List String
  ToolTags : List String
  ReleaseTags : List String

/-- The operating systems the toolchain knows (`knownOS` of `go/build/syslist.go`). -/
def knownOS : List String :=
  ["aix", "android", "darwin", "dragonfly", "freebsd", "hurd", "illumos", "ios", "js",
   "linux", "nacl", "netbsd", "openbsd", "plan9", "solaris", "wasip1", "windows", "zos"]

/-- The architectures the toolchain knows (`knownArch` of `go/build/syslist.go`). -/
def knownArch : List String :=
  ["386", "amd64", "amd64p32", "arm", "armbe", "arm64", "arm64be", "loong64", "mips",
   "mipsle", "mips64", "mips64le", "mips64p32", "mips64p32le", "ppc", "ppc64", "ppc64le",
   "riscv", "riscv64", "s390", "s390x", "sparc", "sparc64", "wasm"]

/-- The operating systems that satisfy the tag `unix` (`unixOS`). -/
def unixOS : List String :=
  ["aix", "android", "darwin", "dragonfly", "freebsd", "hurd", "illumos", "ios", "linux",
   "netbsd", "openbsd", "solaris"]

/-- The context of a plain build for a target operating system and architecture
(`defaultContext` with `GOOS` and `GOARCH` set and no `-tags`): compiler `gc`,
the release tags `go1.1` up to the toolchain's release, here `go1.21`, the
release whose `syslist.go` the lists above follow. -/
def defaultContext (os arch : String) : Context where
  GOOS := os
  GOARCH := arch
  Compiler := "gc"
  CgoEnabled := false
  BuildTags := []
  ToolTags := []
  ReleaseTags := ["go1.1", "go1.2", "go1.3", "go1.4", "go1.5", "go1.6", "go1.7", "go1.8",
    "go1.9", "go1.10", "go1.11", "go1.12", "go1.13", "go1.14", "go1.15", "go1.16", "go1.17",
    "go1.18", "go1.19", "go1.20", "go1.21"]

/-- The method `Context.matchTag`: whether the context satisfies a tag. -/
def matchTag (ctxt : Context) (name : String) : Bool :=
  (ctxt.CgoEnabled && name == "cgo")
  || name == ctxt.GOOS || name == ctxt.GOARCH || name == ctxt.Compiler
  || (ctxt.GOOS == "android" && name == "linux")
  || (ctxt.GOOS == "illumos" && name == "solaris")
  || (ctxt.GOOS == "ios" && name == "darwin")
  || (name == "unix" && unixOS.contains ctxt.GOOS)
  || ctxt.BuildTags.contains (if name == "boringcrypto" then "goexperiment.boringcrypto" else name)
  || ctxt.ToolTags.contains (if name == "boringcrypto" then "goexperiment.boringcrypto" else name)
  || ctxt.ReleaseTags.contains
      (if name == "boringcrypto" then "goexperiment.boringcrypto" else name)

/-- The method `Context.eval`: a constraint expression under the context. -/
def eval (ctxt : Context) (x : Expr) : Bool := x.Eval (matchTag ctxt)

/-- The method `Context.goodOSArchFile`: the constraint a file name implies.
The name is cut at its first dot and at its first underscore; of the
`_`-separated words that follow, a last word `test` is dropped, then a known
operating system followed by a known architecture, or a last word that is
either, must be satisfied. -/
def goodOSArchFile (ctxt : Context) (name : String) : Bool :=
  let stem := (splitOn '.' name.data).headD []
  if !stem.contains '_' then true
  else
    let l := (splitOn '_' (stem.dropWhile fun c => c != '_')).map String.mk
    let l := if l.getLast? == some "test" then l.dropLast else l
    match l.reverse with
    | last :: prev :: _ =>
      if knownOS.contains prev && knownArch.contains last then
        matchTag ctxt last && matchTag ctxt prev
      else if knownOS.contains last || knownArch.contains last then matchTag ctxt last
      else true
    | [last] =>
      if knownOS.contains last || knownArch.contains last then matchTag ctxt last else true
    | [] => true

/-- The state of `parseFileHeader` between lines: the lines read so far
(`seen`), how many of them lie before the most recent blank line of the header
(`stop`), the `//go:build` lines found, and whether a block comment is open. -/
structure HeaderState where
  seen : Nat
  stop : Nat
  ended : Bool
  goBuild : List (List Char)
  inSlashStar : Bool

/-- The inner loop of `parseFileHeader` over one trimmed line: skips comments;
the result is the block-comment state after the line and whether the line holds
text that is not comment, which ends the header. -/
def scanComments : Nat → Bool → List Char → Bool × Bool
  | 0, inSlashStar, _ => (inSlashStar, false)
  | fuel + 1, inSlashStar, line =>
    if line.isEmpty then (inSlashStar, false)
    else if inSlashStar then
      match afterSub "*/".data line with
      | some rest => scanComments fuel false (trimSpace rest)
      | none => (true, false)
    else if hasPrefix line "//".data then (false, false)
    else if hasPrefix line "/*".data then scanComments fuel true (trimSpace (line.drop 2))
    else (false, true)

/-- The outer loop of `parseFileHeader`, line by line. -/
def headerLoop (st : HeaderState) : List (List Char) → HeaderState
  | [] => st
  | raw :: rest =>
    let line := trimSpace raw
    if line.isEmpty && !st.ended then
      headerLoop { st with seen := st.seen + 1, stop := st.seen + 1 } rest
    else
      let ended := st.ended || !hasPrefix line "//".data
      let goBuild :=
        if !st.inSlashStar && isGoBuildComment line then st.goBuild ++ [line] else st.goBuild
      let r := scanComments (line.length + 1) st.inSlashStar line
      let st1 : HeaderState :=
        { seen := st.seen + 1, stop := st.stop, ended := ended, goBuild := goBuild,
          inSlashStar := r.1 }
      if r.2 then st1 else headerLoop st1 rest

/-- Go's `parseFileHeader`: the leading lines in which `// +build` lines count
(those before the last blank line of the leading comments) and the
`//go:build` line, if any; `none` is the error of a second `//go:build` line. -/
def parseFileHeader (content : List (List Char)) :
    Option (List (List Char) × Option (List Char)) :=
  let st := headerLoop
    { seen := 0, stop := 0, ended := false, goBuild := [], inSlashStar := false } content
  match st.goBuild with
  | [] => some (content.take st.stop, none)
  | [g] => some (content.take st.stop, some g)
  | _ => none

/-- The `// +build` branch of `shouldBuild`: every `// +build` line of the header
that parses must hold. -/
def plusBuildLines (ctxt : Context) (header : List (List Char)) : Bool :=
  header.all fun raw =>
    let line := trimSpace raw
    if !hasPrefix line "//".data || !containsSub "+build".data line then true
    else
      match splitPlusBuild line with
      | none => true
      | some text => eval ctxt (parsePlusBuildExpr text)

/-- The method `Context.shouldBuild`: whether the build constraints in the text
of a file hold.  A `//go:build` line, when present, decides alone; otherwise the
`// +build` lines of the header do.  The result `none` is its error (two
`//go:build` lines, or a `//go:build` line that does not parse). -/
def shouldBuild (ctxt : Context) (content : List String) : Option Bool :=
  match parseFileHeader (content.map String.data) with
  | none => none
  | some (_, some g) =>
    match Parse g with
    | some x => some (eval ctxt x)
    | none => none
  | some (header, none) => some (plusBuildLines ctxt header)

/-- The method `Context.shouldBuild` of the toolchains before Go 1.17, which do
not know `//go:build` lines and read the `// +build` lines of the header only. -/
def shouldBuildLegacy (ctxt : Context) (content : List String) : Bool :=
  let lines := content.map String.data
  let st := headerLoop
    { seen := 0, stop := 0, ended := false, goBuild := [], inSlashStar := false } lines
  plusBuildLines ctxt (lines.take st.stop)

/-- The method `Context.matchFile` for a Go file: names beginning with `_` or `.`
are left out, then files whose name implies a constraint that fails, then the
constraints in the text decide; `none` is the error of `shouldBuild`. -/
def matchFile (ctxt : Context) (f : GoFile) : Option Bool :=
  if hasPrefix f.name.data ['_'] || hasPrefix f.name.data ['.'] then some false
  else if !goodOSArchFile ctxt f.name then some false
  else shouldBuild ctxt f.lines

/-- Whether a build for the context compiles the file. -/
def selected (ctxt : Context) (f : GoFile) : Bool := matchFile ctxt f == some true

/-! ## Embedding (`//go:embed`) -/

/-- A byte. -/
abbrev Byte := Fin 256

/-- A package-level variable declaration `var name typ`, with the patterns of
the `//go:embed` directives that stand above it. -/
structure VarDecl where
  name : String
  typ : String
  patterns : List String
  deriving DecidableEq, Repr

/-- The patterns of a `//go:embed` line, `none` when the line is not one. -/
def splitGoEmbed (line : List Char) : Option (List String) :=
  if hasPrefix line "//go:embed ".data || hasPrefix line "//go:embed\t".data then
    some ((fields (line.drop "//go:embed".length)).map String.mk)
  else none

/-- The variable declarations of a file, top to bottom.  A `//go:embed` directive
applies to the `var` declaration that follows it, with only blank lines and
`//` comments in between; `pending` holds the patterns read since the last
line of code. -/
def varDeclsAux (pending : List String) : List (List Char) → List VarDecl
  | [] => []
  | raw :: rest =>
    let line := trimSpace raw
    match splitGoEmbed line with
    | some ps => varDeclsAux (pending ++ ps) rest
    | none =>
      if line.isEmpty || hasPrefix line "//".data then varDeclsAux pending rest
      else if hasPrefix line "var ".data then
        match fields (line.drop 4) with
        | name :: typ :: _ =>
          { name := String.mk name, typ := String.mk typ, patterns := pending } ::
            varDeclsAux [] rest
        | _ => varDeclsAux [] rest
      else varDeclsAux [] rest

/-- The variable declarations of a file. -/
def varDecls (f : GoFile) : List VarDecl := varDeclsAux [] (f.lines.map String.data)

/-- Whether the file imports the package `embed`, which a file with a
`//go:embed` directive must. -/
def importsEmbed (f : GoFile) : Bool :=
  f.lines.any fun l =>
    let line := trimSpace l.data
    !hasPrefix line "//".data && containsSub "\"embed\"".data line

/-- What the package directory holds under a name at build time.  The patterns
of this package contain no glob character, so each spells one file name. -/
inductive Entry where
  | missing
  | unreadable
  | regular (data : List Byte)
  deriving DecidableEq, Repr

/-- The package directory at build time: what each file name holds. -/
abbrev PackageDir := String → Entry

/-- Why a build fails. -/
inductive BuildError where
  | badGoFile (file : String)
  | noGoFiles
  | embedNotImported (file : String)
  | noMatchingFiles (pattern : String)
  | cannotRead (pattern : String)
  | multipleFiles (var : String)
  | badType (var : String)
  deriving DecidableEq, Repr

/-- The initial value of a variable: without a directive the zero value (no
bytes); with one pattern and type `[]byte` the bytes of the file the pattern
names, as they are; everything else fails the build. -/
def embedValue (dir : PackageDir) (v : VarDecl) : Except BuildError (List Byte) :=
  match v.patterns with
  | [] => .ok []
  | [p] =>
    if v.typ == "[]byte" then
      match dir p with
      | .missing => .error (.noMatchingFiles p)
      | .unreadable => .error (.cannotRead p)
      | .regular data => .ok data
    else .error (.badType v.name)
  | _ => .error (.multipleFiles v.name)

/-- The initial values of a list of variables; the first failure fails all. -/
def embedAll (dir : PackageDir) : List VarDecl → Except BuildError (List (String × List Byte))
  | [] => .ok []
  | v :: vs =>
    match embedValue dir v with
    | .error e => .error e
    | .ok data =>
      match embedAll dir vs with
      | .error e => .error e
      | .ok rest => .ok ((v.name, data) :: rest)

/-- The package-level variables of a built binary, each with the bytes it holds. -/
structure Binary where
  vars : List (String × List Byte)
  deriving DecidableEq, Repr

/-- The files of the package a build for the context compiles. -/
def selectedFiles (ctxt : Context) : List GoFile := packageFiles.filter (selected ctxt)

/-- The variables a build for the context compiles into the binary. -/
def declaredVars (ctxt : Context) : List VarDecl := (selectedFiles ctxt).flatMap varDecls

/-- The names of the variables a build for the context compiles into the binary. -/
def compiledSymbols (ctxt : Context) : List String := (declaredVars ctxt).map VarDecl.name

/-- The files of the package directory that the `//go:embed` directives of the
files compiled for the context name. -/
def referencedFiles (ctxt : Context) : List String :=
  (declaredVars ctxt).flatMap VarDecl.patterns

/-- Building the package for a context from a package directory: a file whose
constraints are in error fails the build; otherwise the selected files are
compiled and every variable receives its initial value. -/
def build (ctxt : Context) (dir : PackageDir) : Except BuildError Binary :=
  match packageFiles.find? fun f => (matchFile ctxt f).isNone with
  | some f => .error (.badGoFile f.name)
  | none =>
    match selectedFiles ctxt with
    | [] => .error .noGoFiles
    | fs =>
      match fs.find? fun f =>
        (varDecls f).any (fun v => !v.patterns.isEmpty) && !importsEmbed f with
      | some f => .error (.embedNotImported f.name)
      | none =>
        match embedAll dir (fs.flatMap varDecls) with
        | .error e => .error e
        | .ok vars => .ok { vars := vars }

/-- Reading a variable of the binary: its bytes, `none` when the binary has no
such variable. -/
def Binary.read (b : Binary) (name : String) : Option (List Byte) :=
  (b.vars.find? fun p => p.1 == name).map Prod.snd

/-! ## Run time: slices, backing arrays and the operations on variables -/

/-- A Go slice value that is not `nil`: the backing array it points into (by its
index in the heap), the offset of its first element in that array, its length
and its capacity. -/
structure Slice where
  arr : Nat
  off : Nat
  len : Nat
  cap : Nat
  deriving DecidableEq, Repr

/-- The run-time state of a program that imports the package: the backing
arrays, and the variables of type `[]byte` (the exported variables of the
package and the variables of the importing code), each holding `nil` (`none`)
or a slice.  An assignment adds an entry in front; the first entry of a name is
its current value. -/
structure State where
  heap : List (List Byte)
  vars : List (String × Option Slice)
  deriving DecidableEq, Repr

/-- The variables of the state at program start, for the declarations and
the values of the binary, the `i`-th variable over the `i`-th array: a variable
with a `//go:embed` directive holds a slice over the whole of its own array,
never `nil`; one without holds `nil`. -/
def startVars : Nat → List VarDecl → List (String × List Byte) → List (String × Option Slice)
  | _, [], _ => []
  | _, _ :: _, [] => []
  | i, d :: ds, (name, data) :: rest =>
    (name, if d.patterns.isEmpty then none
      else some { arr := i, off := 0, len := data.length, cap := data.length }) ::
      startVars (i + 1) ds rest

/-- The state at program start of a binary built for the context: one backing
array for each variable, holding its bytes. -/
def start (ctxt : Context) (b : Binary) : State where
  heap := b.vars.map Prod.snd
  vars := startVars 0 (declaredVars ctxt) b.vars

/-- The current value of a variable among the entries. -/
def lookupVar (vars : List (String × Option Slice)) (x : String) : Option (Option Slice) :=
  (vars.find? fun p => p.1 == x).map Prod.snd

/-- The current value of a variable, `none` when there is no such variable. -/
def State.lookup (st : State) (x : String) : Option (Option Slice) := lookupVar st.vars x

/-- The bytes a slice value exposes: none for `nil`, otherwise `len` elements of
its backing array from the offset on. -/
def sliceBytes (heap : List (List Byte)) : Option Slice → Option (List Byte)
  | none => some []
  | some s => (heap[s.arr]?).map fun a => (a.drop s.off).take s.len

/-- Reading a variable: the bytes it exposes now. -/
def State.bytes (st : State) (x : String) : Option (List Byte) :=
  (st.lookup x).bind (sliceBytes st.heap)

/-- The expressions of type `[]byte` of the model: a variable `x`, `nil`, a
composite literal, a slice expression `x[lo:hi]`, and `append(x, b)`; `spare` is
the capacity beyond the new length that the run time gives a new array. -/
inductive SliceExpr where
  | var (x : String)
  | nil
  | lit (data : List Byte)
  | reslice (x : String) (lo hi : Nat)
  | append (x : String) (b : Byte) (spare : Nat)
  deriving DecidableEq, Repr

/-- The value of an expression and the heap after evaluating it; `none` is an
undeclared variable or a run-time panic (slice bounds out of range).  A variable
and a slice expression share the backing array of their operand; a literal takes a
new array; `append` writes into the array of its operand when the capacity
allows and takes a new array otherwise. -/
def evalSlice (st : State) : SliceExpr → Option (Option Slice × List (List Byte))
  | .var x => (st.lookup x).map fun v => (v, st.heap)
  | .nil => some (none, st.heap)
  | .lit data =>
    some (some { arr := st.heap.length, off := 0, len := data.length, cap := data.length },
      st.heap ++ [data])
  | .reslice x lo hi =>
    match st.lookup x with
    | none => none
    | some none => if lo = 0 ∧ hi = 0 then some (none, st.heap) else none
    | some (some s) =>
      if lo ≤ hi ∧ hi ≤ s.cap then
        some (some { arr := s.arr, off := s.off + lo, len := hi - lo, cap := s.cap - lo },
          st.heap)
      else none
  | .append x b spare =>
    match st.lookup x with
    | none => none
    | some none =>
      some (some { arr := st.heap.length, off := 0, len := 1, cap := 1 + spare },
        st.heap ++ [b :: List.replicate spare 0])
    | some (some s) =>
      match st.heap[s.arr]? with
      | none => none
      | some a =>
        if s.len < s.cap then
          some (some { arr := s.arr, off := s.off, len := s.len + 1, cap := s.cap },
            st.heap.set s.arr (a.set (s.off + s.len) b))
        else
          some (some { arr := st.heap.length, off := 0, len := s.len + 1,
                       cap := s.len + 1 + spare },
            st.heap ++ [(a.drop s.off).take s.len ++ b :: List.replicate spare 0])

/-- The operations of the model on variables of type `[]byte`: evaluating a
variable, the assignment `x = e`, the element store `x[i] = b` and
`copy(dst, src)`. -/
inductive Op where
  | read (x : String)
  | assign (x : String) (e : SliceExpr)
  | store (x : String) (i : Nat) (b : Byte)
  | copy (dst src : String)
  deriving DecidableEq, Repr

/-- One operation; `none` is an undeclared variable or a run-time panic (index
out of range).  A store and a copy write into the backing array of the slice
they go through, so that every slice sharing the array sees the change. -/
def step (st : State) : Op → Option State
  | .read x =>
    match st.lookup x with
    | none => none
    | some _ => some st
  | .assign x e =>
    match evalSlice st e with
    | none => none
    | some (v, heap) => some { heap := heap, vars := (x, v) :: st.vars }
  | .store x i b =>
    match st.lookup x with
    | some (some s) =>
      match st.heap[s.arr]? with
      | none => none
      | some a =>
        if i < s.len then
          some { heap := st.heap.set s.arr (a.set (s.off + i) b), vars := st.vars }
        else none
    | _ => none
  | .copy dst src =>
    match st.lookup dst, st.bytes src with
    | some none, some _ => some st
    | some (some d), some srcBytes =>
      match st.heap[d.arr]? with
      | none => none
      | some a =>
        let n := min d.len srcBytes.length
        some { heap := st.heap.set d.arr (a.take d.off ++ srcBytes.take n ++ a.drop (d.off + n)),
               vars := st.vars }
    | _, _ => none

/-- A sequence of operations, from first to last. -/
def run (st : State) : List Op → Option State
  | [] => some st
  | op :: ops =>
    match step st op with
    | none => none
    | some st1 => run st1 ops

/-- The backing array an operation writes an element of, in the state it runs
in: a store that of the slice written through, a copy that of its destination
when it copies at least one element, an `append` that of its operand when it
appends in place. -/
def writtenArray (st : State) : Op → Option Nat
  | .read _ => none
  | .assign _ (.append y _ _) =>
    match st.lookup y with
    | some (some s) => if s.len < s.cap then some s.arr else none
    | _ => none
  | .assign _ _ => none
  | .store x _ _ =>
    match st.lookup x with
    | some (some s) => some s.arr
    | _ => none
  | .copy dst src =>
    match st.lookup dst, st.bytes src with
    | some (some d), some srcBytes => if 0 < min d.len srcBytes.length then some d.arr else none
    | _, _ => none

/-- Whether the operation, in the state it runs in, writes the variable `v`: it
assigns to `v`, or it writes an element of the array that backs `v`. -/
def touches (st : State) (v : String) (op : Op) : Bool :=
  (match op with
    | .assign x _ => x == v
    | _ => false) ||
  (match st.lookup v with
    | some (some s) => writtenArray st op == some s.arr
    | _ => false)

/-- Whether no operation of the sequence, run from the state, writes `v`. -/
def quiet (v : String) : State → List Op → Bool
  | _, [] => true
  | st, op :: ops =>
    !touches st v op &&
      match step st op with
      | none => true
      | some st1 => quiet v st1 ops

/-- A package directory with the three files present; each begins with the four
bytes that open a Zstandard frame. -/
def exampleDir : PackageDir := fun name =>
  if name = "node_windows_amd64.zst" then .regular [40, 181, 47, 253, 1]
  else if name = "sub-store.bundle.js.zst" then .regular [40, 181, 47, 253, 2]
  else if name = "ACL4SSR_Online_Full.yaml.zst" then .regular [40, 181, 47, 253, 3]
  else .missing

/-- A package directory in which the three files exist and hold no bytes. -/
def emptyFilesDir : PackageDir := fun name =>
  if name = "node_windows_amd64.zst" then .regular []
  else if name = "sub-store.bundle.js.zst" then .regular []
  else if name = "ACL4SSR_Online_Full.yaml.zst" then .regular []
  else .missing

/-- The binary built from `exampleDir` for Linux/amd64. -/
def exampleBinary : Binary :=
  { vars := [("EmbeddedSubStore", [40, 181, 47, 253, 2]),
             ("EmbeddedOverrideYaml", [40, 181, 47, 253, 3])] }

/-- The state at the start of `exampleBinary`. -/
def exampleStart : State := start (defaultContext "linux" "amd64") exampleBinary

/-- Operations of an importing program that write `EmbeddedOverrideYaml` through
the alias `x` and fill a new array `y`, and leave `EmbeddedSubStore` alone. -/
def exampleOps : List Op :=
  [.assign "x" (.var "EmbeddedOverrideYaml"), .store "x" 0 9, .assign "y" (.append "x" 1 2),
   .copy "y" "EmbeddedSubStore", .read "EmbeddedSubStore"]

/-- The state after `exampleOps`. -/
def exampleAfter : State where
  heap := [[40, 181, 47, 253, 2], [9, 181, 47, 253, 3], [40, 181, 47, 253, 2, 1, 0, 0]]
  vars := [("y", some { arr := 2, off := 0, len := 6, cap := 8 }),
           ("x", some { arr := 1, off := 0, len := 5, cap := 5 }),
           ("EmbeddedSubStore", some { arr := 0, off := 0, len := 5, cap := 5 }),
           ("EmbeddedOverrideYaml", some { arr := 1, off := 0, len := 5, cap := 5 })]

/-! ## Facts about the two source files -/

/-- The declaration of `EmbeddedNode`. -/
def nodeDecl : VarDecl :=
  { name := "EmbeddedNode", typ := "[]byte", patterns := ["node_windows_amd64.zst"] }

/-- The declaration of `EmbeddedSubStore`. -/
def subStoreDecl : VarDecl :=
  { name := "EmbeddedSubStore", typ := "[]byte", patterns := ["sub-store.bundle.js.zst"] }

/-- The declaration of `EmbeddedOverrideYaml`. -/
def overrideYamlDecl : VarDecl :=
  { name := "EmbeddedOverrideYaml", typ := "[]byte",
    patterns := ["ACL4SSR_Online_Full.yaml.zst"] }

theorem varDecls_assets_win_amd64_go : varDecls assets_win_amd64_go = [nodeDecl] := by
  decide

theorem varDecls_sub_store_go : varDecls sub_store_go = [subStoreDecl, overrideYamlDecl] := by
  decide

/-- The file `sub_store.go` is selected in every context. -/
theorem matchFile_sub_store_go (ctxt : Context) :
    matchFile ctxt sub_store_go = some true := rfl

theorem selected_sub_store_go (ctxt : Context) : selected ctxt sub_store_go = true := rfl

/-- The constraint lines of `assets_win_amd64.go` ask for `windows` and `amd64`. -/
theorem shouldBuild_assets_win_amd64_go (ctxt : Context) :
    shouldBuild ctxt assets_win_amd64_go.lines =
      some (matchTag ctxt "windows" && matchTag ctxt "amd64") := rfl

/-- The name of `assets_win_amd64.go` asks for `amd64`: `win` is no known
operating system. -/
theorem goodOSArchFile_assets_win_amd64_go (ctxt : Context) :
    goodOSArchFile ctxt assets_win_amd64_go.name = matchTag ctxt "amd64" := rfl

/-- The file `assets_win_amd64.go` is selected exactly when the tag `amd64` (from
the file name) and the tags `windows` and `amd64` (from the `//go:build` line)
hold. -/
theorem matchFile_assets_win_amd64_go (ctxt : Context) :
    matchFile ctxt assets_win_amd64_go =
      some (matchTag ctxt "amd64" && (matchTag ctxt "windows" && matchTag ctxt "amd64")) := by
  show (if (!matchTag ctxt "amd64") = true then some false
    else some (matchTag ctxt "windows" && matchTag ctxt "amd64")) = _
  cases matchTag ctxt "amd64" <;> rfl

theorem selected_assets_win_amd64_go (ctxt : Context) :
    selected ctxt assets_win_amd64_go =
      (matchTag ctxt "amd64" && (matchTag ctxt "windows" && matchTag ctxt "amd64")) := by
  unfold selected
  rw [matchFile_assets_win_amd64_go]
  cases (matchTag ctxt "amd64" && (matchTag ctxt "windows" && matchTag ctxt "amd64")) <;> rfl

/-- In a plain build for a known platform the tags `windows` and `amd64` hold
exactly on Windows/amd64. -/
theorem matchTag_defaultContext :
    ∀ os ∈ knownOS, ∀ arch ∈ knownArch,
      (matchTag (defaultContext os arch) "amd64" &&
        (matchTag (defaultContext os arch) "windows" &&
          matchTag (defaultContext os arch) "amd64")) = (os == "windows" && arch == "amd64") := by
  decide

theorem selectedFiles_eq (ctxt : Context) :
    selectedFiles ctxt =
      if selected ctxt assets_win_amd64_go = true then [assets_win_amd64_go, sub_store_go]
      else [sub_store_go] := by
  unfold selectedFiles packageFiles
  cases h : selected ctxt assets_win_amd64_go <;>
    simp [List.filter, h, selected_sub_store_go]

theorem declaredVars_eq (ctxt : Context) :
    declaredVars ctxt =
      if selected ctxt assets_win_amd64_go = true then
        [nodeDecl, subStoreDecl, overrideYamlDecl]
      else [subStoreDecl, overrideYamlDecl] := by
  unfold declaredVars
  rw [selectedFiles_eq]
  cases h : selected ctxt assets_win_amd64_go <;>
    simp [List.flatMap, varDecls_assets_win_amd64_go, varDecls_sub_store_go]

theorem importsEmbed_files :
    importsEmbed assets_win_amd64_go = true ∧ importsEmbed sub_store_go = true := by
  decide

/-- A build compiles the declared variables and gives each its initial value. -/
theorem build_eq (ctxt : Context) (dir : PackageDir) :
    build ctxt dir =
      match embedAll dir (declaredVars ctxt) with
      | .error e => .error e
      | .ok vars => .ok { vars := vars } := by
  have hbad : (packageFiles.find? fun f => (matchFile ctxt f).isNone) = none := by
    simp [packageFiles, List.find?_cons, matchFile_sub_store_go,
      matchFile_assets_win_amd64_go]
  unfold build declaredVars
  rw [hbad, selectedFiles_eq]
  cases h : selected ctxt assets_win_amd64_go <;>
    simp [List.find?, varDecls_assets_win_amd64_go, varDecls_sub_store_go,
      importsEmbed_files.1, importsEmbed_files.2, nodeDecl, subStoreDecl, overrideYamlDecl]

/-- With the three source files readable, the build succeeds and the binary
holds the bytes of each file under the variable bound to it. -/
theorem build_regular (ctxt : Context) (dir : PackageDir) (n s y : List Byte)
    (hn : selected ctxt assets_win_amd64_go = true →
      dir "node_windows_amd64.zst" = .regular n)
    (hs : dir "sub-store.bundle.js.zst" = .regular s)
    (hy : dir "ACL4SSR_Online_Full.yaml.zst" = .regular y) :
    build ctxt dir = .ok { vars :=
      (if selected ctxt assets_win_amd64_go = true then [("EmbeddedNode", n)] else []) ++
        [("EmbeddedSubStore", s), ("EmbeddedOverrideYaml", y)] } := by
  rw [build_eq, declaredVars_eq]
  cases h : selected ctxt assets_win_amd64_go
  · simp [embedAll, embedValue, subStoreDecl, overrideYamlDecl, hs, hy]
  · simp [embedAll, embedValue, nodeDecl, subStoreDecl, overrideYamlDecl, hs, hy, hn h]

/-- In a binary that was built, every compiled variable reads as the bytes of the
file its directive names. -/
theorem build_ok_read (ctxt : Context) (dir : PackageDir) (b : Binary)
    (h : build ctxt dir = .ok b) (v : VarDecl) (hv : v ∈ declaredVars ctxt) :
    ∃ p data, v.patterns = [p] ∧ dir p = .regular data ∧ b.read v.name = some data := by
  rw [build_eq, declaredVars_eq] at h
  rw [declaredVars_eq] at hv
  cases hm : selected ctxt assets_win_amd64_go
  · simp only [hm, Bool.false_eq_true, if_false] at h hv
    cases hs : dir "sub-store.bundle.js.zst" <;>
      cases hy : dir "ACL4SSR_Online_Full.yaml.zst" <;>
      simp [embedAll, embedValue, subStoreDecl, overrideYamlDecl, hs, hy] at h
    subst h
    simp only [List.mem_cons, List.mem_singleton, List.not_mem_nil, or_false] at hv
    rcases hv with rfl | rfl
    · exact ⟨_, _, rfl, hs, by simp [Binary.read, subStoreDecl]⟩
    · exact ⟨_, _, rfl, hy, by simp [Binary.read, overrideYamlDecl]⟩
  · simp only [hm, if_true] at h hv
    cases hn : dir "node_windows_amd64.zst" <;>
      cases hs : dir "sub-store.bundle.js.zst" <;>
      cases hy : dir "ACL4SSR_Online_Full.yaml.zst" <;>
      simp [embedAll, embedValue, nodeDecl, subStoreDecl, overrideYamlDecl, hn, hs, hy] at h
    subst h
    simp only [List.mem_cons, List.mem_singleton, List.not_mem_nil, or_false] at hv
    rcases hv with rfl | rfl | rfl
    · exact ⟨_, _, rfl, hn, by simp [Binary.read, nodeDecl]⟩
    · exact ⟨_, _, rfl, hs, by simp [Binary.read, subStoreDecl]⟩
    · exact ⟨_, _, rfl, hy, by simp [Binary.read, overrideYamlDecl]⟩

/-- A referenced file that is not a readable regular file fails the build. -/
theorem build_error_of_not_regular (ctxt : Context) (dir : PackageDir) (p : String)
    (hp : p ∈ referencedFiles ctxt) (hbad : ∀ data, dir p ≠ .regular data) :
    ∃ e, build ctxt dir = .error e := by
  cases hb : build ctxt dir with
  | error e => exact ⟨e, rfl⟩
  | ok b =>
    exfalso
    unfold referencedFiles at hp
    rw [List.mem_flatMap] at hp
    obtain ⟨v, hv, hpv⟩ := hp
    obtain ⟨q, data, hq, hd, _⟩ := build_ok_read ctxt dir b hb v hv
    rw [hq, List.mem_singleton] at hpv
    subst hpv
    exact hbad data hd

/-- The variables of a built binary are the compiled symbols. -/
theorem build_ok_symbols (ctxt : Context) (dir : PackageDir) (b : Binary)
    (h : build ctxt dir = .ok b) (name : String) :
    (b.read name).isSome = true ↔ name ∈ compiledSymbols ctxt := by
  unfold compiledSymbols
  rw [build_eq, declaredVars_eq] at h
  rw [declaredVars_eq]
  cases hm : selected ctxt assets_win_amd64_go
  · simp only [hm, Bool.false_eq_true, if_false] at h ⊢
    cases hs : dir "sub-store.bundle.js.zst" <;>
      cases hy : dir "ACL4SSR_Online_Full.yaml.zst" <;>
      simp [embedAll, embedValue, subStoreDecl, overrideYamlDecl, hs, hy] at h
    subst h
    by_cases h1 : name = "EmbeddedSubStore"
    · subst h1; simp [Binary.read, subStoreDecl]
    · by_cases h2 : name = "EmbeddedOverrideYaml"
      · subst h2; simp [Binary.read, subStoreDecl, overrideYamlDecl]
      · have e1 : ("EmbeddedSubStore" == name) = false := by
          rw [beq_eq_false_iff_ne]; exact fun e => h1 e.symm
        have e2 : ("EmbeddedOverrideYaml" == name) = false := by
          rw [beq_eq_false_iff_ne]; exact fun e => h2 e.symm
        simp [Binary.read, List.find?_cons, subStoreDecl, overrideYamlDecl, h1, h2, e1, e2]
  · simp only [hm, if_true] at h ⊢
    cases hn : dir "node_windows_amd64.zst" <;>
      cases hs : dir "sub-store.bundle.js.zst" <;>
      cases hy : dir "ACL4SSR_Online_Full.yaml.zst" <;>
      simp [embedAll, embedValue, nodeDecl, subStoreDecl, overrideYamlDecl, hn, hs, hy] at h
    subst h
    by_cases h0 : name = "EmbeddedNode"
    · subst h0; simp [Binary.read, nodeDecl]
    · by_cases h1 : name = "EmbeddedSubStore"
      · subst h1; simp [Binary.read, nodeDecl, subStoreDecl]
      · by_cases h2 : name = "EmbeddedOverrideYaml"
        · subst h2; simp [Binary.read, nodeDecl, subStoreDecl, overrideYamlDecl]
        · have e0 : ("EmbeddedNode" == name) = false := by
            rw [beq_eq_false_iff_ne]; exact fun e => h0 e.symm
          have e1 : ("EmbeddedSubStore" == name) = false := by
            rw [beq_eq_false_iff_ne]; exact fun e => h1 e.symm
          have e2 : ("EmbeddedOverrideYaml" == name) = false := by
            rw [beq_eq_false_iff_ne]; exact fun e => h2 e.symm
          simp [Binary.read, List.find?_cons, nodeDecl, subStoreDecl, overrideYamlDecl,
            h0, h1, h2, e0, e1, e2]

theorem lookupVar_cons_ne (vars : List (String × Option Slice)) (x v : String)
    (val : Option Slice) (h : x ≠ v) : lookupVar ((x, val) :: vars) v = lookupVar vars v := by
  have hx : (x == v) = false := by rw [beq_eq_false_iff_ne]; exact h
  simp [lookupVar, List.find?_cons, hx]

theorem sliceBytes_append (heap extra : List (List Byte)) (sv : Option Slice)
    (data : List Byte) (h : sliceBytes heap sv = some data) :
    sliceBytes (heap ++ extra) sv = some data := by
  cases sv with
  | none => exact h
  | some s =>
    simp only [sliceBytes] at h ⊢
    cases ha : heap[s.arr]? with
    | none => simp [ha] at h
    | some a =>
      have hlt : s.arr < heap.length := by
        by_contra hge
        rw [List.getElem?_eq_none (Nat.le_of_not_lt hge)] at ha
        cases ha
      rw [List.getElem?_append_left hlt, ha]
      rw [ha] at h
      exact h

theorem sliceBytes_set_ne (heap : List (List Byte)) (k : Nat) (a : List Byte)
    (sv : Option Slice) (h : ∀ s, sv = some s → s.arr ≠ k) :
    sliceBytes (heap.set k a) sv = sliceBytes heap sv := by
  cases sv with
  | none => rfl
  | some s =>
    simp only [sliceBytes]
    rw [List.getElem?_set_ne (fun e => h s rfl e.symm)]

theorem sliceBytes_set_self (heap : List (List Byte)) (k : Nat) (a : List Byte)
    (sv : Option Slice) (h : heap[k]? = some a) :
    sliceBytes (heap.set k a) sv = sliceBytes heap sv := by
  have hset : heap.set k a = heap := by
    apply List.ext_getElem?
    intro j
    by_cases hj : k = j
    · subst hj
      have hk : k < heap.length := by
        by_contra hge
        rw [List.getElem?_eq_none (Nat.le_of_not_lt hge)] at h
        cases h
      simp [List.getElem?_set, hk, h]
    · rw [List.getElem?_set_ne hj]
  rw [hset]

theorem touches_false (st : State) (v : String) (op : Op) (h : touches st v op = false) :
    (∀ x e, op = .assign x e → x ≠ v) ∧
      ∀ s, st.lookup v = some (some s) → writtenArray st op ≠ some s.arr := by
  unfold touches at h
  rw [Bool.or_eq_false_iff] at h
  obtain ⟨h1, h2⟩ := h
  constructor
  · intro x e hop
    subst hop
    simpa using h1
  · intro s hs hw
    rw [hs] at h2
    simp [hw] at h2

/-- An operation that does not write a variable leaves its value and the bytes
it exposes. -/
theorem step_frame (st st1 : State) (op : Op) (v : String) (sv : Option Slice)
    (data : List Byte) (hstep : step st op = some st1) (ht : touches st v op = false)
    (hl : st.lookup v = some sv) (hb : sliceBytes st.heap sv = some data) :
    st1.lookup v = some sv ∧ sliceBytes st1.heap sv = some data := by
  obtain ⟨hassign, hwrite⟩ := touches_false st v op ht
  have hne : ∀ k, writtenArray st op = some k → ∀ s, sv = some s → s.arr ≠ k := by
    intro k hk s hs e
    subst hs
    exact hwrite s hl (by rw [hk, e])
  cases op with
  | read x =>
    unfold step at hstep
    cases hx : st.lookup x with
    | none => simp [hx] at hstep
    | some w =>
      simp [hx] at hstep
      subst hstep
      exact ⟨hl, hb⟩
  | assign x e =>
    have hxv : x ≠ v := hassign x e rfl
    unfold step at hstep
    cases he : evalSlice st e with
    | none => simp [he] at hstep
    | some r =>
      obtain ⟨val, heap⟩ := r
      simp [he] at hstep
      subst hstep
      refine ⟨by simpa [State.lookup, lookupVar_cons_ne _ _ _ _ hxv] using hl, ?_⟩
      show sliceBytes heap sv = some data
      cases e with
      | var y =>
        simp [evalSlice] at he
        obtain ⟨_, _, _, hh⟩ := he
        rw [← hh]; exact hb
      | nil =>
        simp [evalSlice] at he
        rw [← he.2]; exact hb
      | lit d =>
        simp [evalSlice] at he
        rw [← he.2]; exact sliceBytes_append _ _ _ _ hb
      | reslice y lo hi =>
        unfold evalSlice at he
        cases hy : st.lookup y with
        | none => simp [hy] at he
        | some w =>
          cases w with
          | none =>
            simp [hy] at he
            rw [← he.2.2]; exact hb
          | some s =>
            simp [hy] at he
            rw [← he.2.2]; exact hb
      | append y b spare =>
        unfold evalSlice at he
        cases hy : st.lookup y with
        | none => simp [hy] at he
        | some w =>
          cases w with
          | none =>
            simp [hy] at he
            rw [← he.2]; exact sliceBytes_append _ _ _ _ hb
          | some s =>
            cases ha : st.heap[s.arr]? with
            | none => simp [hy, ha] at he
            | some a =>
              by_cases hcap : s.len < s.cap
              · simp [hy, ha, hcap] at he
                rw [← he.2]
                rw [sliceBytes_set_ne _ _ _ _
                  (hne s.arr (by simp [writtenArray, hy, hcap]))]
                exact hb
              · simp [hy, ha, hcap] at he
                rw [← he.2]; exact sliceBytes_append _ _ _ _ hb
  | store x i b =>
    unfold step at hstep
    cases hx : st.lookup x with
    | none => simp [hx] at hstep
    | some w =>
      cases w with
      | none => simp [hx] at hstep
      | some s =>
        cases ha : st.heap[s.arr]? with
        | none => simp [hx, ha] at hstep
        | some a =>
          simp [hx, ha] at hstep
          obtain ⟨_, hst⟩ := hstep
          subst hst
          refine ⟨hl, ?_⟩
          show sliceBytes (st.heap.set s.arr _) sv = some data
          rw [sliceBytes_set_ne _ _ _ _ (hne s.arr (by simp [writtenArray, hx]))]
          exact hb
  | copy dst src =>
    unfold step at hstep
    cases hd : st.lookup dst with
    | none => simp [hd] at hstep
    | some w =>
      cases hs : st.bytes src with
      | none => simp [hd, hs] at hstep
      | some srcBytes =>
        cases w with
        | none =>
          simp [hd, hs] at hstep
          subst hstep
          exact ⟨hl, hb⟩
        | some d =>
          cases ha : st.heap[d.arr]? with
          | none => simp [hd, hs, ha] at hstep
          | some a =>
            simp [hd, hs, ha] at hstep
            subst hstep
            refine ⟨hl, ?_⟩
            by_cases hn : 0 < min d.len srcBytes.length
            · show sliceBytes (st.heap.set d.arr _) sv = some data
              rw [sliceBytes_set_ne _ _ _ _ (hne d.arr (by simp [writtenArray, hd, hs, hn]))]
              exact hb
            · have h0 : min d.len srcBytes.length = 0 := Nat.eq_zero_of_not_pos hn
              show sliceBytes (st.heap.set d.arr _) sv = some data
              rw [h0]
              simp only [List.take_zero, List.nil_append, Nat.add_zero, List.take_append_drop]
              rw [sliceBytes_set_self _ _ _ _ ha]
              exact hb

/-- A sequence of operations none of which writes a variable leaves its value
and the bytes it exposes. -/
theorem run_frame (v : String) (sv : Option Slice) (data : List Byte) (ops : List Op) :
    ∀ st st2 : State, run st ops = some st2 → quiet v st ops = true →
      st.lookup v = some sv → sliceBytes st.heap sv = some data →
      st2.lookup v = some sv ∧ sliceBytes st2.heap sv = some data := by
  induction ops with
  | nil =>
    intro st st2 hrun _ hl hb
    simp [run] at hrun
    subst hrun
    exact ⟨hl, hb⟩
  | cons op ops ih =>
    intro st st2 hrun hq hl hb
    unfold run at hrun
    unfold quiet at hq
    cases hs : step st op with
    | none => simp [hs] at hrun
    | some st1 =>
      simp only [hs] at hrun hq
      rw [Bool.and_eq_true] at hq
      obtain ⟨ht, hq1⟩ := hq
      have ht1 : touches st v op = false := by simpa using ht
      obtain ⟨hl1, hb1⟩ := step_frame st st1 op v sv data hs ht1 hl hb
      exact ih st1 st2 hrun hq1 hl1 hb1

/-- The assignment of a literal to a variable succeeds; the variable then exposes
the bytes of the literal. -/
theorem step_assign_lit (st : State) (v : String) (new : List Byte) :
    ∃ st1, step st (.assign v (.lit new)) = some st1 ∧ st1.bytes v = some new := by
  refine ⟨_, rfl, ?_⟩
  simp [State.bytes, State.lookup, lookupVar, List.find?_cons, sliceBytes]

/-- A store through a slice over a whole array changes that element. -/
theorem step_store_whole (st : State) (v : String) (k : Nat) (data : List Byte) (i : Nat)
    (x : Byte) (hl : st.lookup v = some (some ⟨k, 0, data.length, data.length⟩))
    (hh : st.heap[k]? = some data) (hi : i < data.length) :
    ∃ st1, step st (.store v i x) = some st1 ∧ st1.bytes v = some (data.set i x) := by
  have hk : k < st.heap.length := by
    by_contra hge
    rw [List.getElem?_eq_none (Nat.le_of_not_lt hge)] at hh
    cases hh
  refine ⟨{ heap := st.heap.set k (data.set (0 + i) x), vars := st.vars }, ?_, ?_⟩
  · simp [step, hl, hh, hi]
  · have hl1 : State.lookup { heap := st.heap.set k (data.set (0 + i) x), vars := st.vars } v =
        some (some ⟨k, 0, data.length, data.length⟩) := hl
    rw [State.bytes, hl1]
    simp [sliceBytes, hk]

/-- At the start of a binary that was built, every compiled variable holds a
slice, not `nil`, over the whole of an array of its own that holds the bytes of
the file its directive names. -/
theorem build_ok_start (ctxt : Context) (dir : PackageDir) (b : Binary)
    (h : build ctxt dir = .ok b) (v : VarDecl) (hv : v ∈ declaredVars ctxt) :
    ∃ p data k, v.patterns = [p] ∧ dir p = .regular data ∧ b.read v.name = some data ∧
      (start ctxt b).lookup v.name = some (some ⟨k, 0, data.length, data.length⟩) ∧
      (start ctxt b).heap[k]? = some data := by
  have hstart : start ctxt b =
      { heap := b.vars.map Prod.snd, vars := startVars 0 (declaredVars ctxt) b.vars } := rfl
  rw [hstart]
  rw [build_eq, declaredVars_eq] at h
  rw [declaredVars_eq] at hv ⊢
  cases hm : selected ctxt assets_win_amd64_go
  · simp only [hm, Bool.false_eq_true, if_false] at h hv ⊢
    cases hs : dir "sub-store.bundle.js.zst" <;>
      cases hy : dir "ACL4SSR_Online_Full.yaml.zst" <;>
      simp [embedAll, embedValue, subStoreDecl, overrideYamlDecl, hs, hy] at h
    subst h
    simp only [List.mem_cons, List.mem_singleton, List.not_mem_nil, or_false] at hv
    rcases hv with rfl | rfl
    · exact ⟨_, _, 0, rfl, hs, by simp [Binary.read, subStoreDecl], rfl, rfl⟩
    · exact ⟨_, _, 1, rfl, hy, by simp [Binary.read, overrideYamlDecl], rfl, rfl⟩
  · simp only [hm, if_true] at h hv ⊢
    cases hn : dir "node_windows_amd64.zst" <;>
      cases hs : dir "sub-store.bundle.js.zst" <;>
      cases hy : dir "ACL4SSR_Online_Full.yaml.zst" <;>
      simp [embedAll, embedValue, nodeDecl, subStoreDecl, overrideYamlDecl, hn, hs, hy] at h
    subst h
    simp only [List.mem_cons, List.mem_singleton, List.not_mem_nil, or_false] at hv
    rcases hv with rfl | rfl | rfl
    · exact ⟨_, _, 0, rfl, hn, by simp [Binary.read, nodeDecl], rfl, rfl⟩
    · exact ⟨_, _, 1, rfl, hs, by simp [Binary.read, subStoreDecl], rfl, rfl⟩
    · exact ⟨_, _, 2, rfl, hy, by simp [Binary.read, overrideYamlDecl], rfl, rfl⟩

/-- The bytes a slice over a whole array exposes are the array. -/
theorem sliceBytes_whole (heap : List (List Byte)) (k : Nat) (data : List Byte)
    (hh : heap[k]? = some data) :
    sliceBytes heap (some ⟨k, 0, data.length, data.length⟩) = some data := by
  simp [sliceBytes, hh]

/-- Tags given with `-tags` count like the platform's own: a build for
Linux/arm64 with `-tags windows,amd64` selects `assets_win_amd64.go`.  Such a
build is not a plain build for a platform. -/
theorem selected_with_custom_tags :
    selected { defaultContext "linux" "arm64" with BuildTags := ["windows", "amd64"] }
      assets_win_amd64_go = true := by
  decide

/-! ## The claims -/

/-- C1: in a plain build for a known operating system and architecture, the
variable `EmbeddedNode` is among the compiled symbols, and is a variable of the
built binary, if and only if the operating system is `windows` and the
architecture is `amd64`; the file is selected by the conjunction of the
constraint its name implies and the constraint lines in its text. -/
theorem embeddedNode_compiled_iff_windows_amd64 (os arch : String)
    (hos : os ∈ knownOS) (harch : arch ∈ knownArch) :
    ("EmbeddedNode" ∈ compiledSymbols (defaultContext os arch) ↔
        os = "windows" ∧ arch = "amd64") ∧
      (∃ inText, shouldBuild (defaultContext os arch) assets_win_amd64_go.lines = some inText ∧
        selected (defaultContext os arch) assets_win_amd64_go =
          (goodOSArchFile (defaultContext os arch) assets_win_amd64_go.name && inText)) ∧
      ∀ dir b, build (defaultContext os arch) dir = .ok b →
        ((b.read "EmbeddedNode").isSome = true ↔ os = "windows" ∧ arch = "amd64") := by
  have hm : selected (defaultContext os arch) assets_win_amd64_go =
      (os == "windows" && arch == "amd64") := by
    rw [selected_assets_win_amd64_go]
    exact matchTag_defaultContext os hos arch harch
  have hsym : "EmbeddedNode" ∈ compiledSymbols (defaultContext os arch) ↔
      os = "windows" ∧ arch = "amd64" := by
    unfold compiledSymbols
    rw [declaredVars_eq, hm]
    by_cases h : os = "windows" ∧ arch = "amd64"
    · obtain ⟨h1, h2⟩ := h
      subst h1 h2
      simp [nodeDecl]
    · have hb : (os == "windows" && arch == "amd64") = false := by
        simpa [Bool.and_eq_false_iff] using h
      simp only [hb, Bool.false_eq_true, if_false]
      simp [subStoreDecl, overrideYamlDecl, h]
  refine ⟨hsym, ⟨_, shouldBuild_assets_win_amd64_go _, ?_⟩, ?_⟩
  · rw [selected_assets_win_amd64_go, goodOSArchFile_assets_win_amd64_go]
  · intro dir b hb
    rw [build_ok_symbols _ dir b hb]
    exact hsym

theorem embeddedNode_compiled_iff_windows_amd64_witness :
    "windows" ∈ knownOS ∧ "amd64" ∈ knownArch ∧
      "EmbeddedNode" ∈ compiledSymbols (defaultContext "windows" "amd64") :=
  ⟨by decide, by decide,
    (embeddedNode_compiled_iff_windows_amd64 "windows" "amd64" (by decide) (by decide)).1.2
      ⟨rfl, rfl⟩⟩

/-- C2: in every build context the variables `EmbeddedSubStore` and
`EmbeddedOverrideYaml` are compiled: no line of `sub_store.go` is a build
constraint, its name implies no constraint, the file is selected, and both
variables are variables of every binary that is built. -/
theorem subStore_and_overrideYaml_always_compiled (ctxt : Context) :
    (sub_store_go.lines.all fun l => (Parse (trimSpace l.data)).isNone) = true ∧
      goodOSArchFile ctxt sub_store_go.name = true ∧
      selected ctxt sub_store_go = true ∧
      "EmbeddedSubStore" ∈ compiledSymbols ctxt ∧
      "EmbeddedOverrideYaml" ∈ compiledSymbols ctxt ∧
      ∀ dir b, build ctxt dir = .ok b →
        (b.read "EmbeddedSubStore").isSome = true ∧
          (b.read "EmbeddedOverrideYaml").isSome = true := by
  have h1 : "EmbeddedSubStore" ∈ compiledSymbols ctxt := by
    unfold compiledSymbols
    rw [declaredVars_eq]
    cases selected ctxt assets_win_amd64_go <;> simp [subStoreDecl]
  have h2 : "EmbeddedOverrideYaml" ∈ compiledSymbols ctxt := by
    unfold compiledSymbols
    rw [declaredVars_eq]
    cases selected ctxt assets_win_amd64_go <;> simp [overrideYamlDecl]
  refine ⟨by decide, rfl, rfl, h1, h2, ?_⟩
  intro dir b hb
  exact ⟨(build_ok_symbols ctxt dir b hb _).2 h1, (build_ok_symbols ctxt dir b hb _).2 h2⟩

theorem subStore_and_overrideYaml_always_compiled_witness :
    build (defaultContext "linux" "arm64") exampleDir = .ok exampleBinary ∧
      (exampleBinary.read "EmbeddedSubStore").isSome = true ∧
      (exampleBinary.read "EmbeddedOverrideYaml").isSome = true :=
  ⟨rfl,
    (subStore_and_overrideYaml_always_compiled (defaultContext "linux" "arm64")).2.2.2.2.2
      exampleDir exampleBinary rfl⟩

/-- C3: for every content of the three source files, the build succeeds and
the binary holds under `EmbeddedSubStore` the bytes of `sub-store.bundle.js.zst`,
under `EmbeddedOverrideYaml` the bytes of `ACL4SSR_Online_Full.yaml.zst` and,
when `assets_win_amd64.go` is selected, under `EmbeddedNode` the bytes of
`node_windows_amd64.zst`, each unchanged. -/
theorem embedded_bytes_equal_source_files (ctxt : Context) (dir : PackageDir)
    (n s y : List Byte)
    (hn : selected ctxt assets_win_amd64_go = true →
      dir "node_windows_amd64.zst" = .regular n)
    (hs : dir "sub-store.bundle.js.zst" = .regular s)
    (hy : dir "ACL4SSR_Online_Full.yaml.zst" = .regular y) :
    ∃ b, build ctxt dir = .ok b ∧
      b.read "EmbeddedSubStore" = some s ∧
      b.read "EmbeddedOverrideYaml" = some y ∧
      (selected ctxt assets_win_amd64_go = true → b.read "EmbeddedNode" = some n) := by
  refine ⟨_, build_regular ctxt dir n s y hn hs hy, ?_, ?_, ?_⟩
  · cases selected ctxt assets_win_amd64_go <;> simp [Binary.read]
  · cases selected ctxt assets_win_amd64_go <;> simp [Binary.read]
  · intro h
    simp [Binary.read, h]

theorem embedded_bytes_equal_source_files_witness :
    ∃ b, build (defaultContext "windows" "amd64") exampleDir = .ok b ∧
      b.read "EmbeddedSubStore" = some [40, 181, 47, 253, 2] ∧
      b.read "EmbeddedOverrideYaml" = some [40, 181, 47, 253, 3] ∧
      (selected (defaultContext "windows" "amd64") assets_win_amd64_go = true →
        b.read "EmbeddedNode" = some [40, 181, 47, 253, 1]) :=
  embedded_bytes_equal_source_files (defaultContext "windows" "amd64") exampleDir
    [40, 181, 47, 253, 1] [40, 181, 47, 253, 2] [40, 181, 47, 253, 3]
    (fun _ => by decide) (by decide) (by decide)

/-- C4, as stated, fails: in the binary built from `exampleDir` for Linux/amd64
the variables are assignable slices over writable arrays.  After the store
`EmbeddedSubStore[0] = 0` the reachable state holds other bytes in
`EmbeddedSubStore` than the initial state; and after
`EmbeddedSubStore = EmbeddedOverrideYaml; EmbeddedSubStore[0] = 9` it holds
other bytes in `EmbeddedOverrideYaml` too, which shares the array. -/
theorem store_changes_embedded_asset :
    build (defaultContext "linux" "amd64") exampleDir = .ok exampleBinary ∧
      exampleStart.bytes "EmbeddedSubStore" = some [40, 181, 47, 253, 2] ∧
      exampleStart.bytes "EmbeddedOverrideYaml" = some [40, 181, 47, 253, 3] ∧
      (run exampleStart [Op.store "EmbeddedSubStore" 0 0]).bind
        (fun st => st.bytes "EmbeddedSubStore") = some [0, 181, 47, 253, 2] ∧
      (run exampleStart [Op.assign "EmbeddedSubStore" (.var "EmbeddedOverrideYaml"),
          Op.store "EmbeddedSubStore" 0 9]).bind
        (fun st => st.bytes "EmbeddedOverrideYaml") = some [9, 181, 47, 253, 3] :=
  ⟨rfl, by decide, by decide, by decide, by decide⟩

/-- C4, amended: in every binary that was built, every compiled variable is
writable, not read-only: an assignment to it succeeds and the variable then
exposes the assigned bytes, and a store into any of its elements succeeds and
changes that byte.  And along every sequence of operations none of which
assigns to the variable or writes an element of the array that backs it
(through the variable or through any slice that shares the array), every
reachable state holds in the variable the same bytes as the initial state. -/
theorem assets_change_only_by_writes (ctxt : Context) (dir : PackageDir) (b : Binary)
    (h : build ctxt dir = .ok b) (v : VarDecl) (hv : v ∈ declaredVars ctxt) :
    ∃ data, (start ctxt b).bytes v.name = some data ∧
      (∀ new, ∃ st, step (start ctxt b) (.assign v.name (.lit new)) = some st ∧
        st.bytes v.name = some new) ∧
      (∀ i x, i < data.length → ∃ st, step (start ctxt b) (.store v.name i x) = some st ∧
        st.bytes v.name = some (data.set i x)) ∧
      (∀ ops st, run (start ctxt b) ops = some st → quiet v.name (start ctxt b) ops = true →
        st.bytes v.name = some data) := by
  obtain ⟨p, data, k, _, _, _, hl, hh⟩ := build_ok_start ctxt dir b h v hv
  have hbytes : sliceBytes (start ctxt b).heap (some ⟨k, 0, data.length, data.length⟩) =
      some data := sliceBytes_whole _ k data hh
  refine ⟨data, ?_, fun new => step_assign_lit _ _ new,
    fun i x hi => step_store_whole _ _ k data i x hl hh hi, ?_⟩
  · rw [State.bytes, hl]
    exact hbytes
  · intro ops st hrun hq
    obtain ⟨hl2, hb2⟩ := run_frame v.name _ data ops _ st hrun hq hl hbytes
    rw [State.bytes, hl2]
    exact hb2

theorem assets_change_only_by_writes_witness :
    build (defaultContext "linux" "amd64") exampleDir = .ok exampleBinary ∧
      subStoreDecl ∈ declaredVars (defaultContext "linux" "amd64") ∧
      run exampleStart exampleOps = some exampleAfter ∧
      quiet "EmbeddedSubStore" exampleStart exampleOps = true ∧
      exampleAfter.bytes "EmbeddedSubStore" = exampleStart.bytes "EmbeddedSubStore" ∧
      exampleAfter.bytes "EmbeddedOverrideYaml" ≠ exampleStart.bytes "EmbeddedOverrideYaml" :=
  ⟨rfl, by decide, by decide, by decide,
    match assets_change_only_by_writes (defaultContext "linux" "amd64") exampleDir
        exampleBinary rfl subStoreDecl (by decide) with
    | ⟨_, h0, _, _, hinv⟩ => (hinv exampleOps exampleAfter (by decide) (by decide)).trans h0.symm,
    by decide⟩

/-- C5, as stated, fails: of two reads of `EmbeddedSubStore` in one process, the
first at the start of `exampleBinary` and the second after the assignment
`EmbeddedSubStore = []byte{}`, the first returns five bytes and the second
none. -/
theorem assign_between_reads_changes_result :
    exampleStart.bytes "EmbeddedSubStore" = some [40, 181, 47, 253, 2] ∧
      (run exampleStart [Op.read "EmbeddedSubStore", Op.assign "EmbeddedSubStore" (.lit [])]).bind
        (fun st => st.bytes "EmbeddedSubStore") = some [] :=
  ⟨by decide, by decide⟩

/-- C5, amended: for every variable and any two reads of it between which no
operation assigns to the variable or writes an element of the array that backs
it (through the variable or through any slice that shares the array), the
second read returns the same slice and the same bytes as the first (`st` is the
state at the first read, which returns `data`; `mid` are the operations
between the reads; `st2` is the state at the second read). -/
theorem reads_agree_without_write_between (st : State) (v : String) (mid : List Op)
    (st2 : State) (data : List Byte) (hread : st.bytes v = some data)
    (hq : quiet v st mid = true) (hrun : run st mid = some st2) :
    st2.lookup v = st.lookup v ∧ st2.bytes v = some data := by
  unfold State.bytes at hread
  cases hl : st.lookup v with
  | none => simp [hl] at hread
  | some sv =>
    rw [hl] at hread
    obtain ⟨hl2, hb2⟩ := run_frame v sv data mid st st2 hrun hq hl hread
    refine ⟨hl2, ?_⟩
    rw [State.bytes, hl2]
    exact hb2

theorem reads_agree_without_write_between_witness :
    exampleStart.bytes "EmbeddedSubStore" = some [40, 181, 47, 253, 2] ∧
      quiet "EmbeddedSubStore" exampleStart exampleOps = true ∧
      run exampleStart exampleOps = some exampleAfter ∧
      exampleAfter.lookup "EmbeddedSubStore" = exampleStart.lookup "EmbeddedSubStore" ∧
      exampleAfter.bytes "EmbeddedSubStore" = some [40, 181, 47, 253, 2] :=
  ⟨by decide, by decide, by decide,
    reads_agree_without_write_between exampleStart "EmbeddedSubStore" exampleOps exampleAfter
      [40, 181, 47, 253, 2] (by decide) (by decide) (by decide)⟩

/-- C6, as stated, fails: with the three source files present and empty, the
build for Windows/amd64 succeeds and each of the three variables holds no
bytes. -/
theorem empty_source_file_gives_empty_asset :
    build (defaultContext "windows" "amd64") emptyFilesDir =
      .ok { vars := [("EmbeddedNode", []), ("EmbeddedSubStore", []),
                     ("EmbeddedOverrideYaml", [])] } :=
  rfl

/-- C6, amended: in every binary that was built, every compiled variable is
not `nil` and exposes exactly the bytes of its source file; it is non-empty
(length > 0) if and only if its source file is non-empty. -/
theorem asset_nonempty_iff_source_nonempty (ctxt : Context) (dir : PackageDir)
    (b : Binary) (h : build ctxt dir = .ok b) (v : VarDecl) (hv : v ∈ declaredVars ctxt) :
    ∃ p data s, v.patterns = [p] ∧ dir p = .regular data ∧
      (start ctxt b).lookup v.name = some (some s) ∧
      b.read v.name = some data ∧
      (start ctxt b).bytes v.name = some data ∧
      (0 < data.length ↔ dir p ≠ .regular []) := by
  obtain ⟨p, data, k, hp, hd, hr, hl, hh⟩ := build_ok_start ctxt dir b h v hv
  refine ⟨p, data, _, hp, hd, hl, hr, ?_, ?_⟩
  · rw [State.bytes, hl]
    exact sliceBytes_whole _ k data hh
  · rw [hd]
    cases data <;> simp

theorem asset_nonempty_iff_source_nonempty_witness :
    build (defaultContext "linux" "amd64") exampleDir = .ok exampleBinary ∧
      subStoreDecl ∈ declaredVars (defaultContext "linux" "amd64") ∧
      ∃ p data s, subStoreDecl.patterns = [p] ∧ exampleDir p = .regular data ∧
        (start (defaultContext "linux" "amd64") exampleBinary).lookup subStoreDecl.name =
          some (some s) ∧
        exampleBinary.read subStoreDecl.name = some data ∧
        (start (defaultContext "linux" "amd64") exampleBinary).bytes subStoreDecl.name =
          some data ∧
        (0 < data.length ↔ exampleDir p ≠ .regular []) :=
  ⟨rfl, by decide,
    asset_nonempty_iff_source_nonempty (defaultContext "linux" "amd64") exampleDir
      exampleBinary rfl subStoreDecl (by decide)⟩


/-- C7: a file that a directive of a compiled source file names and that is
missing or unreadable fails the build, so that no binary exists; with every such
file readable the build succeeds; and in every binary that was built, reading a
compiled variable returns the bytes of its source file, with no error and no
substitute value. -/
theorem only_failure_is_at_build_time (ctxt : Context) (dir : PackageDir) :
    (∀ p ∈ referencedFiles ctxt, dir p = .missing ∨ dir p = .unreadable →
        ∃ e, build ctxt dir = .error e) ∧
      ((∀ p ∈ referencedFiles ctxt, ∃ data, dir p = .regular data) →
        ∃ b, build ctxt dir = .ok b) ∧
      ∀ b, build ctxt dir = .ok b → ∀ v ∈ declaredVars ctxt,
        ∃ p data, v.patterns = [p] ∧ dir p = .regular data ∧ b.read v.name = some data := by
  refine ⟨?_, ?_, ?_⟩
  · intro p hp hbad
    apply build_error_of_not_regular ctxt dir p hp
    intro data hd
    rcases hbad with h | h <;> rw [h] at hd <;> cases hd
  · intro hall
    have hrefs : referencedFiles ctxt =
        (if selected ctxt assets_win_amd64_go = true then ["node_windows_amd64.zst"] else [])
          ++ ["sub-store.bundle.js.zst", "ACL4SSR_Online_Full.yaml.zst"] := by
      unfold referencedFiles
      rw [declaredVars_eq]
      cases selected ctxt assets_win_amd64_go <;>
        simp [List.flatMap, nodeDecl, subStoreDecl, overrideYamlDecl]
    obtain ⟨s, hs⟩ := hall "sub-store.bundle.js.zst" (by rw [hrefs]; simp)
    obtain ⟨y, hy⟩ := hall "ACL4SSR_Online_Full.yaml.zst" (by rw [hrefs]; simp)
    by_cases hm : selected ctxt assets_win_amd64_go = true
    · obtain ⟨n, hn⟩ := hall "node_windows_amd64.zst" (by rw [hrefs]; simp [hm])
      exact ⟨_, build_regular ctxt dir n s y (fun _ => hn) hs hy⟩
    · exact ⟨_, build_regular ctxt dir [] s y (fun h => absurd h hm) hs hy⟩
  · intro b hb v hv
    exact build_ok_read ctxt dir b hb v hv

theorem only_failure_is_at_build_time_witness :
    "sub-store.bundle.js.zst" ∈ referencedFiles (defaultContext "linux" "amd64") ∧
      (∃ e, build (defaultContext "linux" "amd64") (fun _ => Entry.missing) = .error e) ∧
      (∃ b, build (defaultContext "linux" "amd64") exampleDir = .ok b) :=
  ⟨by decide,
    (only_failure_is_at_build_time (defaultContext "linux" "amd64")
      (fun _ => Entry.missing)).1 "sub-store.bundle.js.zst" (by decide) (Or.inl rfl),
    (only_failure_is_at_build_time (defaultContext "linux" "amd64") exampleDir).2.1
      (fun p hp => by
        have hrefs : referencedFiles (defaultContext "linux" "amd64") =
            ["sub-store.bundle.js.zst", "ACL4SSR_Online_Full.yaml.zst"] := by decide
        rw [hrefs] at hp
        simp only [List.mem_cons, List.mem_singleton, List.not_mem_nil, or_false] at hp
        rcases hp with rfl | rfl
        · exact ⟨_, rfl⟩
        · exact ⟨_, rfl⟩)⟩

/-- The file `node_windows_amd64.zst` is referenced only by a source file that
builds for other platforms leave out: without it a build for Linux/amd64
succeeds. -/
theorem build_without_node_file :
    build (defaultContext "linux" "amd64")
        (fun name => if name = "node_windows_amd64.zst" then .missing else exampleDir name) =
      .ok exampleBinary :=
  rfl

/-- C9: the first two lines of `assets_win_amd64.go` parse, the `//go:build`
line and the `// +build` line, and in every build context the two expressions
have the same value; so the toolchains that read the `//go:build` line and those
that read only `// +build` lines decide alike on the text of the file. -/
theorem build_constraint_lines_agree (ctxt : Context) :
    ∃ x y, (assets_win_amd64_go.lines.take 2).map (fun l => Parse l.data) = [some x, some y] ∧
      (assets_win_amd64_go.lines.take 2).map (fun l => (splitGoBuild l.data).isSome) =
        [true, false] ∧
      (assets_win_amd64_go.lines.take 2).map (fun l => (splitPlusBuild l.data).isSome) =
        [false, true] ∧
      eval ctxt x = eval ctxt y ∧
      eval ctxt x = (matchTag ctxt "windows" && matchTag ctxt "amd64") ∧
      shouldBuild ctxt assets_win_amd64_go.lines =
        some (shouldBuildLegacy ctxt assets_win_amd64_go.lines) := by
  have h1 : shouldBuild ctxt assets_win_amd64_go.lines =
      some (matchTag ctxt "windows" && matchTag ctxt "amd64") := rfl
  have h2 : shouldBuildLegacy ctxt assets_win_amd64_go.lines =
      (true && ((matchTag ctxt "windows" && matchTag ctxt "amd64") && (true && true))) := rfl
  refine ⟨Expr.and (Expr.tag "windows") (Expr.tag "amd64"),
    Expr.and (Expr.tag "windows") (Expr.tag "amd64"), by decide, by decide, by decide, rfl, rfl,
    ?_⟩
  rw [h1, h2]
  simp

end Assets
